import Mathlib

/-!
Shallow embedding of the `notebook_mcp` indexing/search core:
`src/nbmcp/indexer.py` (`NotesIndex`), `src/nbmcp/searcher.py`
(`NotesSearcher`), and the registration entry point
`NotesServer.add_notes_dir` from `src/nbmcp/server.py`.

Modelling conventions:
* A filesystem path is a list of components (`Path := List String`);
  `f"{path}"` joins the components with the POSIX separator `/`.
* A Python `dict` is an insertion-ordered association list; overwriting
  an existing key keeps its position, a new key is appended (CPython
  dict semantics).
* The Python `set` of normalized extensions is modelled as a
  deduplicated list in first-insertion order; CPython set iteration
  order is fixed within a process run, which is all the claims use.
* The external tools `rg` and `grep`, together with `json.loads` on one
  line of `rg --json` output, are oracles collected in `ToolEnv`.  The
  model keeps the exact argument structure of the invocations in the
  source and treats the produced stdout lines as arbitrary data;
  `sh.ErrorReturnCode` is the `.error ()` case of the run oracles.
* Python exceptions are `Except`; `str.lower` maps `Char.toLower` over
  the characters, `str.splitlines` splits at the newline character and
  drops a trailing empty piece, and `int(...)` strips whitespace and
  parses an optional sign and digits.  These coincide with Python on
  the ASCII, LF-only data used by the concrete witnesses in this file.
-/

namespace NbMcp

abbrev Path := List String

/-- Model of `str(path)` for a relative `pathlib` path: components joined by `/`. -/
def joinPath : List String → String
  | [] => ""
  | [c] => c
  | c :: rest => c ++ "/" ++ joinPath rest

/-- Model of Python `str.lower` (ASCII, as in all data of this file). -/
def pyLower (s : String) : String := ⟨s.data.map Char.toLower⟩

/-- Split a character list at every occurrence of a separator (the
semantics of Python `str.split(sep)`: `n` separators yield `n + 1`
pieces, so the empty input yields one empty piece). -/
def splitData (sep : Char) : List Char → List (List Char)
  | [] => [[]]
  | c :: rest =>
    let r := splitData sep rest
    if c == sep then [] :: r
    else
      match r with
      | [] => [[c]]
      | h :: t => (c :: h) :: t

/-- Model of `pathlib.Path(s)`: split a path string back into components. -/
def pathOfString (s : String) : Path := (splitData (Char.ofNat 47) s.data).map (fun l => ⟨l⟩)

/-- Model of Python `str.startswith`. -/
def pyStartsWith (s pre : String) : Bool := pre.data.isPrefixOf s.data

/-- Model of Python `str.endswith` (used for the glob suffix test). -/
def pyEndsWith (s suffix : String) : Bool := suffix.data.reverse.isPrefixOf s.data.reverse

/-- Boolean infix test on character lists (Python `needle in hay` on strings). -/
def infixOfList (needle : List Char) : List Char → Bool
  | [] => needle.isEmpty
  | c :: rest => needle.isPrefixOf (c :: rest) || infixOfList needle rest

/-- Model of Python substring membership `needle in hay`. -/
def strContains (hay needle : String) : Bool := infixOfList needle.data hay.data

/-- Model of Python `str.splitlines` for LF-separated text: split at
every newline and drop the trailing empty piece. -/
def splitlines (s : String) : List String :=
  let parts := (splitData (Char.ofNat 10) s.data).map (fun l => (⟨l⟩ : String))
  match parts.getLast? with
  | some "" => parts.dropLast
  | _ => parts

/-- Decimal digit run to a number (`none` when empty or non-digit). -/
def digitsToNat : List Char → Option Nat
  | [] => none
  | cs => cs.foldl (fun acc c =>
      match acc with
      | none => none
      | some n => if c.isDigit then some (n * 10 + (c.toNat - 48)) else none) (some 0)

/-- Model of Python `int(s)` (`none` is the `ValueError` case):
surrounding whitespace is allowed, then an optional sign and digits. -/
def pyInt? (s : String) : Option Int :=
  match (s.data.dropWhile Char.isWhitespace).reverse.dropWhile Char.isWhitespace |>.reverse with
  | '-' :: rest => (digitsToNat rest).map (fun n => -(n : Int))
  | '+' :: rest => (digitsToNat rest).map (fun n => (n : Int))
  | cs => (digitsToNat cs).map (fun n => (n : Int))

/-- A single quote character, used to build error-message strings. -/
def sq : String := ⟨[Char.ofNat 39]⟩

/-- Boolean list-prefix test on path components (used for `Path.relative_to`
and for scoping `rglob` results to a source directory). -/
def isPre : List String → List String → Bool
  | [], _ => true
  | _ :: _, [] => false
  | a :: as, b :: bs => a == b && isPre as bs

/-- Well-formed path component: nonempty and free of the separator, as
every component of a real filesystem path is. -/
def wfComp (c : String) : Prop := c ≠ "" ∧ '/' ∉ c.data

instance (c : String) : Decidable (wfComp c) := by
  unfold wfComp
  infer_instance

/-- Read-only filesystem model: the regular files (absolute paths, in the
traversal order `rglob` enumerates them) and UTF-8 text reads, where
`.error` is any `OSError`/`UnicodeDecodeError`. -/
structure FS where
  files : List Path
  readFile : Path → Except String String

/-- Model of `pathlib.PurePath.name`: the last path component. -/
def fileName (p : Path) : String := (p.getLast?).getD ""

/-- Model of the glob pattern `*.{e}` applied to a file name: `fnmatch`
translates it to `.*\.e`, i.e. an `endsWith` test, case-sensitive on a
POSIX filesystem. -/
def matchesExtPattern (e : String) (p : Path) : Bool :=
  pyEndsWith (fileName p) ("." ++ e)

/-- A path strictly below a directory: `rglob` enumerates entries inside
`d`, never `d` itself. -/
def isStrictlyUnder (d p : Path) : Bool := isPre d p && decide (d.length < p.length)

/-- Model of `source_dir.rglob(f"*.{ext}")` restricted to regular files
(the source guards every hit with `file_path.is_file()`, and `FS.files`
holds exactly the regular files). -/
def rglobExt (fs : FS) (d : Path) (e : String) : List Path :=
  fs.files.filter (fun p => isStrictlyUnder d p && matchesExtPattern e p)

/-- State of `NotesIndex` (indexer.py): `notes`, `sources` and
`extensions`, with dicts as insertion-ordered association lists. -/
structure NotesIndex where
  notes : List (String × Path)
  sources : List (String × Path)
  extensions : List String

/-- Python dict assignment `m[k] = v`: overwrite the key in place if it
is present (a dict never holds a key twice), else append at the end. -/
def insertA : List (String × Path) → String → Path → List (String × Path)
  | [], k, v => [(k, v)]
  | q :: rest, k, v => if q.1 == k then (k, v) :: rest else q :: insertA rest k v

/-- Python dict lookup `m.get(k)` / `k in m`: the value of the first
(in a dict: only) pair with the given key. -/
def lookupA : List (String × Path) → String → Option Path
  | [], _ => none
  | q :: rest, k => if q.1 == k then some q.2 else lookupA rest k

/-- Normalization of one extension: `ext.lower().lstrip(".")`. -/
def normalizeExt (e : String) : String := ⟨(pyLower e).data.dropWhile (fun c => c == '.')⟩

/-- Append an element to a set-as-list if not already present. -/
def dedupAppend (acc : List String) (e : String) : List String :=
  if acc.contains e then acc else acc ++ [e]

/-- Model of the set comprehension building `self.extensions`. -/
def normalizeExts (exts : List String) : List String :=
  exts.foldl (fun acc e => dedupAppend acc (normalizeExt e)) []

/-- All `(note_id, file_path)` pairs produced by the nested loops of
`NotesIndex.index_sources`: for every source, for every extension, for
every `rglob` hit, the pair `(f"{source_name}:{rel_path}", file_path)`. -/
def scanPairs (fs : FS) (sources : List (String × Path)) (exts : List String) :
    List (String × Path) :=
  sources.flatMap (fun sp =>
    exts.flatMap (fun e =>
      (rglobExt fs sp.2 e).map (fun f => (sp.1 ++ ":" ++ joinPath (f.drop sp.2.length), f))))

/-- Sequence of dict assignments `notes[id] = path` over a pair list. -/
def updateAll (m : List (String × Path)) (ps : List (String × Path)) : List (String × Path) :=
  ps.foldl (fun m kv => insertA m kv.1 kv.2) m

/-- Value of the last pair with the given key in a pair list (the value
a key holds after all assignments of the list have run). -/
def lastVal : List (String × Path) → String → Option Path
  | [], _ => none
  | kv :: rest, k =>
    match lastVal rest k with
    | some v => some v
    | none => if kv.1 == k then some kv.2 else none

/-- Model of `NotesIndex.index_sources`: normalize the extension set,
then insert every scanned pair into `notes` (which is not cleared). -/
def index_sources (fs : FS) (idx : NotesIndex) (exts : List String) : NotesIndex :=
  let ne := normalizeExts exts
  { notes := updateAll idx.notes (scanPairs fs idx.sources ne)
    sources := idx.sources
    extensions := ne }

/-- Model of `NotesIndex.get_note_path`: the raised `ValueError` is the
`.error` case carrying the exact message. -/
def get_note_path (idx : NotesIndex) (noteId : String) : Except String Path :=
  match lookupA idx.notes noteId with
  | none => .error ("Note ID " ++ sq ++ noteId ++ sq ++ " not found in index")
  | some p => .ok p

/-- Model of `NotesIndex.list_notes`: all keys, or the keys whose
lowercased id contains the lowercased query (`if not query` treats both
`None` and the empty string as "no filter"). -/
def list_notes (idx : NotesIndex) (query : Option String) : List String :=
  match query with
  | none => idx.notes.map (fun kv => kv.1)
  | some q =>
    if q == "" then idx.notes.map (fun kv => kv.1)
    else (idx.notes.map (fun kv => kv.1)).filter
      (fun noteId => strContains (pyLower noteId) (pyLower q))

/-- Directory-level filesystem oracles used by source registration:
`expanduser`, `resolve` (symlink-resolving, total also on missing paths
since `strict=False`), `is_dir`, `exists`.  The two laws are facts of
any real filesystem: a directory exists, and resolution is idempotent. -/
structure DirEnv where
  expanduser : Path → Path
  resolve : Path → Path
  isDir : Path → Bool
  pathExists : Path → Bool
  isDir_exists : ∀ p, isDir p = true → pathExists p = true
  resolve_idem : ∀ p, resolve (resolve p) = resolve p

/-- Model of `NotesIndex.add_source`: default the name to
`source_dir.name` (computed before resolving, as in the source), resolve,
and insert/overwrite `sources[name]`. -/
def add_source (env : DirEnv) (idx : NotesIndex) (dir : Path) (nameOpt : Option String) :
    NotesIndex :=
  let name := nameOpt.getD (fileName dir)
  let rdir := env.resolve dir
  { idx with sources := insertA idx.sources name rdir }

/-- Model of `NotesServer.add_notes_dir` (server.py), the registration
entry point: expanduser + resolve, fail with `ValueError` unless the
result is a directory, then delegate to `add_source`. -/
def add_notes_dir (env : DirEnv) (idx : NotesIndex) (dirPath : Path) (nameOpt : Option String) :
    Except String NotesIndex :=
  let path := env.resolve (env.expanduser dirPath)
  if env.isDir path then
    let name := nameOpt.getD (fileName path)
    .ok (add_source env idx path (some name))
  else
    .error ("not a directory: " ++ joinPath path)

/-- Shape of one search result dict. -/
structure SearchResult where
  note_id : String
  line_number : Int
  context : String
deriving Repr, DecidableEq

/-- Outcome of `json.loads` plus field extraction on one line of
`rg --json` output: a match record with path string, line number and
context text; a record of another type; or a
`JSONDecodeError`/`KeyError`. -/
inductive RgRecord where
  | matchRec (path : String) (lineNumber : Int) (context : String)
  | nonMatch
  | parseFail
deriving Repr, DecidableEq

/-- Oracles for the external search tools, fixed at searcher
construction: availability flags from `shutil.which`, the stdout lines
produced by an `rg`/`grep` invocation (`.error ()` is
`sh.ErrorReturnCode`), and the structured parse of one `rg` output
line.  Argument order of the run oracles: query, context_lines,
include-pattern/extension, directory. -/
structure ToolEnv where
  rgAvailable : Bool
  grepAvailable : Bool
  rgRun : String → Int → String → Path → Except Unit (List String)
  parseRg : String → RgRecord
  grepRun : String → Int → String → Path → Except Unit (List String)

/-- The `-g` include pattern `*.{ext1,ext2,...}` built by `_ripgrep_search`. -/
def includePattern (exts : List String) : String :=
  "*.\x7b" ++ String.intercalate "," exts ++ "\x7d"

/-- One parsed `rg` match turned into a result dict. -/
def mkToolResult (name : String) (dir : Path) (p : Path) (ln : Int) (ctx : String) :
    SearchResult :=
  { note_id := name ++ ":" ++ joinPath (p.drop dir.length), line_number := ln, context := ctx }

/-- The per-line parsing loop of `_ripgrep_search` for one source
directory.  A `matchRec` whose path is not under the source directory
makes `Path.relative_to` raise `ValueError`, which nothing in this
method catches: that is the `.error ()` outcome, propagating to
`search`.  `count >= max_results` breaks out of the loop. -/
def rgParseLines (env : ToolEnv) (name : String) (dir : Path) (k : Int) :
    List String → Int → List SearchResult → Except Unit (List SearchResult × Int)
  | [], count, results => .ok (results, count)
  | line :: rest, count, results =>
    if count ≥ k then .ok (results, count)
    else
      match env.parseRg line with
      | .parseFail => rgParseLines env name dir k rest count results
      | .nonMatch => rgParseLines env name dir k rest count results
      | .matchRec pstr ln ctx =>
        let fp := pathOfString pstr
        if isPre dir fp then
          rgParseLines env name dir k rest (count + 1)
            (results ++ [mkToolResult name dir fp ln ctx])
        else
          .error ()

/-- The per-source loop of `_ripgrep_search`: skip a source on
`sh.ErrorReturnCode`, stop once `count >= max_results`. -/
def rgSourcesGo (env : ToolEnv) (q : String) (c k : Int) (pat : String) :
    List (String × Path) → Int → List SearchResult → Except Unit (List SearchResult)
  | [], _, results => .ok results
  | (name, dir) :: rest, count, results =>
    if count ≥ k then .ok results
    else
      match env.rgRun q c pat dir with
      | .error _ => rgSourcesGo env q c k pat rest count results
      | .ok lines =>
        match rgParseLines env name dir k lines count results with
        | .error e => .error e
        | .ok (results', count') => rgSourcesGo env q c k pat rest count' results'

/-- Model of `NotesSearcher._ripgrep_search`. -/
def ripgrep_search (env : ToolEnv) (idx : NotesIndex) (q : String) (k c : Int) :
    Except Unit (List SearchResult) :=
  rgSourcesGo env q c k (includePattern idx.extensions) idx.sources 0 []

/-- The `if current_result:` flush that runs after the grep line loop. -/
def grepFlush (results : List SearchResult) (count : Int) (cur : Option SearchResult) :
    List SearchResult × Int :=
  match cur with
  | some r => (results ++ [r], count + 1)
  | none => (results, count)

/-- Python `line.split(":", 2)`: at most three parts. -/
def splitFirst (sep : Char) : List Char → Option (List Char × List Char)
  | [] => none
  | c :: t =>
    if c == sep then some ([], t)
    else (splitFirst sep t).map (fun ab => (c :: ab.1, ab.2))

/-- Python `line.split(":", 2)` on strings. -/
def pySplitColon2 (s : String) : List String :=
  match splitFirst ':' s.data with
  | none => [s]
  | some (a, rest) =>
    match splitFirst ':' rest with
    | none => [⟨a⟩, ⟨rest⟩]
    | some (b, rest2) => [⟨a⟩, ⟨b⟩, ⟨rest2⟩]

/-- The per-line parsing loop of `_grep_search` for one (source,
extension) invocation, including the flush of the pending result after
the loop.  `current_file` in the source is always `None`, so every line
containing a colon is treated as a header candidate; a header parse
failure (`Path.relative_to` or `int` raising `ValueError`) skips the
line; a line without a colon extends the pending result's context. -/
def grepParseLines (name : String) (dir : Path) (k : Int) :
    List String → Int → List SearchResult → Option SearchResult → List SearchResult × Int
  | [], count, results, cur => grepFlush results count cur
  | line :: rest, count, results, cur =>
    if count ≥ k then grepFlush results count cur
    else if pyStartsWith line "--" then
      match cur with
      | some r => grepParseLines name dir k rest (count + 1) (results ++ [r]) none
      | none => grepParseLines name dir k rest count results none
    else if strContains line ":" then
      match pySplitColon2 line with
      | [p0, p1, p2] =>
        let fp := pathOfString p0
        if isPre dir fp then
          match pyInt? p1 with
          | some ln =>
            grepParseLines name dir k rest count results
              (some { note_id := name ++ ":" ++ joinPath (fp.drop dir.length)
                      line_number := ln
                      context := p2 ++ "\n" })
          | none => grepParseLines name dir k rest count results cur
        else grepParseLines name dir k rest count results cur
      | _ => grepParseLines name dir k rest count results cur
    else
      match cur with
      | some r =>
        grepParseLines name dir k rest count results
          (some { r with context := r.context ++ line ++ "\n" })
      | none => grepParseLines name dir k rest count results none

/-- The per-extension loop of `_grep_search` for one source: skip an
extension on `sh.ErrorReturnCode`; no `max_results` check here (only the
line loop and the source loop check it, as in the source). -/
def grepExtsGo (env : ToolEnv) (q : String) (c k : Int) (name : String) (dir : Path) :
    List String → Int → List SearchResult → List SearchResult × Int
  | [], count, results => (results, count)
  | ext :: rest, count, results =>
    match env.grepRun q c ext dir with
    | .error _ => grepExtsGo env q c k name dir rest count results
    | .ok lines =>
      let rc := grepParseLines name dir k lines count results none
      grepExtsGo env q c k name dir rest rc.2 rc.1

/-- The per-source loop of `_grep_search`. -/
def grepSourcesGo (env : ToolEnv) (q : String) (c k : Int) (exts : List String) :
    List (String × Path) → Int → List SearchResult → List SearchResult
  | [], _, results => results
  | (name, dir) :: rest, count, results =>
    if count ≥ k then results
    else
      let rc := grepExtsGo env q c k name dir exts count results
      grepSourcesGo env q c k exts rest rc.2 rc.1

/-- Model of `NotesSearcher._grep_search`.  Every exception inside it is
caught (`sh.ErrorReturnCode` per invocation, `ValueError` per header
line), so it is total. -/
def grep_search (env : ToolEnv) (idx : NotesIndex) (q : String) (k c : Int) :
    List SearchResult :=
  grepSourcesGo env q c k idx.extensions idx.sources 0 []

/-- The first-match line scan of `_basic_search`: `line_number` starts at
`0` and is set to `i + 1` for the first line whose lowercased text
contains the (already lowercased) query. -/
def findLineNumber (q : String) : List String → Nat → Nat
  | [], _ => 0
  | l :: rest, i => if strContains (pyLower l) q then i + 1 else findLineNumber q rest (i + 1)

/-- The context slice of `_basic_search`:
`"\n".join(lines[max(0, n - 3) : min(len(lines), n + 2)])` (Nat
subtraction is exactly `max 0 (n - 3)`). -/
def basicContext (lines : List String) (n : Nat) : String :=
  let start := n - 3
  let stop := min lines.length (n + 2)
  String.intercalate "\n" ((lines.drop start).take (stop - start))

/-- The per-note loop of `_basic_search`: stop at `max_results`, skip
unreadable files, emit one result per file whose lowercased content
contains the lowercased query. -/
def basicGo (fs : FS) (q : String) (k : Int) :
    List (String × Path) → Int → List SearchResult → List SearchResult
  | [], _, results => results
  | (noteId, p) :: rest, count, results =>
    if count ≥ k then results
    else
      match fs.readFile p with
      | .error _ => basicGo fs q k rest count results
      | .ok content =>
        if strContains (pyLower content) q then
          let lines := splitlines content
          let n := findLineNumber q lines 0
          basicGo fs q k rest (count + 1)
            (results ++ [{ note_id := noteId
                           line_number := (n : Int)
                           context := basicContext lines n }])
        else basicGo fs q k rest count results

/-- Model of `NotesSearcher._basic_search` (the query is lowercased once
at the top). -/
def basic_search (fs : FS) (notes : List (String × Path)) (q : String) (k : Int) :
    List SearchResult :=
  basicGo fs (pyLower q) k notes 0 []

/-- Whether one `notes` entry is a hit of the in-memory scan: readable
and its lowercased content contains the (already lowercased) query. -/
def basicIsMatch (fs : FS) (ql : String) (kv : String × Path) : Bool :=
  match fs.readFile kv.2 with
  | .ok content => strContains (pyLower content) ql
  | .error _ => false

/-- The result `_basic_search` builds for one matching notes entry. -/
def basicResultFor (fs : FS) (ql : String) (kv : String × Path) : SearchResult :=
  match fs.readFile kv.2 with
  | .ok content =>
    let lines := splitlines content
    let n := findLineNumber ql lines 0
    { note_id := kv.1, line_number := (n : Int), context := basicContext lines n }
  | .error _ => { note_id := kv.1, line_number := 0, context := "" }

/-- Model of `NotesSearcher.search`: no tool available means the
in-memory scan; otherwise run ripgrep if available else grep, and fall
back to the in-memory scan if the chosen backend raises. -/
def search (env : ToolEnv) (fs : FS) (idx : NotesIndex) (q : String) (k c : Int) :
    List SearchResult :=
  if !(env.rgAvailable || env.grepAvailable) then basic_search fs idx.notes q k
  else
    match (if env.rgAvailable then ripgrep_search env idx q k c
           else .ok (grep_search env idx q k c)) with
    | .ok results => results
    | .error _ => basic_search fs idx.notes q k

/-- Model of `NotesSearcher.read_note`: look up (a missing id raises the
not-found `ValueError` of `get_note_path`, uncaught here), then read,
wrapping any read failure in the
`Failed to read note {note_id}: {e}` `ValueError`. -/
def read_note (fs : FS) (idx : NotesIndex) (noteId : String) : Except String String :=
  match get_note_path idx noteId with
  | .error e => .error e
  | .ok p =>
    match fs.readFile p with
    | .error e => .error ("Failed to read note " ++ noteId ++ ": " ++ e)
    | .ok content => .ok content

/-- State-passing form of `search`: the method reads
`self.index.notes/sources/extensions` and assigns none of them, so the
index state threads through unchanged. -/
def searchST (env : ToolEnv) (fs : FS) (idx : NotesIndex) (q : String) (k c : Int) :
    List SearchResult × NotesIndex :=
  (search env fs idx q k c, idx)

/-- State-passing form of `read_note` (reads `self.index.notes` only). -/
def read_noteST (fs : FS) (idx : NotesIndex) (noteId : String) :
    Except String String × NotesIndex :=
  (read_note fs idx noteId, idx)

/-- State-passing form of `list_notes` (reads `self.notes` only). -/
def list_notesST (idx : NotesIndex) (query : Option String) :
    List String × NotesIndex :=
  (list_notes idx query, idx)


/-! ### Concrete fixtures used by witnesses and counterexamples -/

/-- Tool environment with neither ripgrep nor grep on the PATH. -/
def envNoTools : ToolEnv where
  rgAvailable := false
  grepAvailable := false
  rgRun := fun _ _ _ _ => .error ()
  parseRg := fun _ => .parseFail
  grepRun := fun _ _ _ _ => .error ()

/-- Tool environment where ripgrep is present but emits a match record
whose path lies outside the source directory, so `Path.relative_to`
raises and the backend fails mid-call. -/
def envRgBroken : ToolEnv where
  rgAvailable := true
  grepAvailable := false
  rgRun := fun _ _ _ _ => .ok ["x"]
  parseRg := fun _ => .matchRec "elsewhere" 1 "ctx"
  grepRun := fun _ _ _ _ => .error ()

/-- Filesystem with one readable note and one unreadable note. -/
def fsW : FS where
  files := [["r", "a.md"], ["r", "bad.md"]]
  readFile := fun p => if p == ["r", "a.md"] then .ok "hello\nworld\n" else .error "missing"

/-- Index over `fsW` as the scan would build it. -/
def idxW : NotesIndex where
  notes := [("r:a.md", ["r", "a.md"]), ("r:bad.md", ["r", "bad.md"])]
  sources := [("r", ["r"])]
  extensions := ["md"]

/-- Directory oracles where exactly `["r"]` is an existing directory. -/
def dirEnvW : DirEnv where
  expanduser := id
  resolve := id
  isDir := fun p => p == ["r"]
  pathExists := fun p => p == ["r"]
  isDir_exists := fun _ h => h
  resolve_idem := fun _ => rfl

/-- An index with nothing registered. -/
def idxEmpty : NotesIndex := ⟨[], [], []⟩

/-- Filesystem whose one note matches the query only across a line
boundary. -/
def fsC3 : FS where
  files := [["r", "a.md"]]
  readFile := fun p => if p == ["r", "a.md"] then .ok "one\ntwo\n" else .error "missing"

/-- Index over `fsC3`. -/
def idxC3 : NotesIndex where
  notes := [("r:a.md", ["r", "a.md"])]
  sources := [("r", ["r"])]
  extensions := ["md"]

/-- Filesystem whose one note matches on line 4 of 6, so the claimed
3-before/2-after window would span all six lines. -/
def fsC4 : FS where
  files := [["r", "b.md"]]
  readFile := fun p =>
    if p == ["r", "b.md"] then .ok "l1\nl2\nl3\nfoo\nl5\nl6\n" else .error "missing"

/-- Index over `fsC4`. -/
def idxC4 : NotesIndex where
  notes := [("r:b.md", ["r", "b.md"])]
  sources := [("r", ["r"])]
  extensions := ["md"]

/-- Filesystem holding a file whose extension matches `md` only
case-insensitively. -/
def fsC6 : FS where
  files := [["r", "NOTES.MD"]]
  readFile := fun _ => .error "unreadable"

/-- Index with one registered source over `fsC6`, nothing scanned yet. -/
def idxC6 : NotesIndex := ⟨[], [("r", ["r"])], []⟩

/-! ### Length invariants for the result cap (C1) -/

theorem basicGo_len (fs : FS) (q : String) (k : Int) :
    ∀ (notes : List (String × Path)) (count : Int) (results : List SearchResult),
      count = (results.length : Int) → (results.length : Int) ≤ k →
      ((basicGo fs q k notes count results).length : Int) ≤ k := by
  intro notes
  induction notes with
  | nil =>
    intro count results h hle
    simpa [basicGo] using hle
  | cons kv rest ih =>
    intro count results h hle
    obtain ⟨noteId, p⟩ := kv
    by_cases hk : count ≥ k
    · simpa [basicGo, if_pos hk] using hle
    · simp only [basicGo, if_neg hk]
      cases hrf : fs.readFile p with
      | error e => exact ih count results h hle
      | ok content =>
        by_cases hc : strContains (pyLower content) q = true
        · simp only [hc, if_true]
          refine ih (count + 1) (results ++ [_]) ?_ ?_
          · simp only [List.length_append, List.length_cons, List.length_nil]
            push_cast
            omega
          · simp only [List.length_append, List.length_cons, List.length_nil]
            push_cast
            omega
        · simp only [hc, if_false]
          exact ih count results h hle

theorem basic_search_len (fs : FS) (notes : List (String × Path)) (q : String) (k : Int)
    (hk : 0 < k) : ((basic_search fs notes q k).length : Int) ≤ k := by
  exact basicGo_len fs (pyLower q) k notes 0 [] (by simp) (by simp; omega)

theorem rgParseLines_len (env : ToolEnv) (name : String) (dir : Path) (k : Int) :
    ∀ (lines : List String) (count : Int) (results : List SearchResult)
      (res' : List SearchResult) (cnt' : Int),
      count = (results.length : Int) → (results.length : Int) ≤ k →
      rgParseLines env name dir k lines count results = .ok (res', cnt') →
      cnt' = (res'.length : Int) ∧ (res'.length : Int) ≤ k := by
  intro lines
  induction lines with
  | nil =>
    intro count results res' cnt' h hle heq
    simp only [rgParseLines, Except.ok.injEq, Prod.mk.injEq] at heq
    obtain ⟨h1, h2⟩ := heq
    subst h1
    subst h2
    exact ⟨h, hle⟩
  | cons line rest ih =>
    intro count results res' cnt' h hle heq
    by_cases hk : count ≥ k
    · simp only [rgParseLines, if_pos hk, Except.ok.injEq, Prod.mk.injEq] at heq
      obtain ⟨h1, h2⟩ := heq
      subst h1
      subst h2
      exact ⟨h, hle⟩
    · simp only [rgParseLines, if_neg hk] at heq
      cases hpr : env.parseRg line with
      | parseFail =>
        rw [hpr] at heq
        exact ih count results res' cnt' h hle heq
      | nonMatch =>
        rw [hpr] at heq
        exact ih count results res' cnt' h hle heq
      | matchRec pstr ln ctx =>
        rw [hpr] at heq
        simp only at heq
        by_cases hpre : isPre dir (pathOfString pstr) = true
        · rw [if_pos hpre] at heq
          refine ih (count + 1) (results ++ [mkToolResult name dir (pathOfString pstr) ln ctx])
            res' cnt' ?_ ?_ heq
          · simp only [List.length_append, List.length_cons, List.length_nil]
            push_cast
            omega
          · simp only [List.length_append, List.length_cons, List.length_nil]
            push_cast
            omega
        · rw [if_neg hpre] at heq
          exact absurd heq (by simp)

theorem rgSourcesGo_len (env : ToolEnv) (q : String) (c k : Int) (pat : String) :
    ∀ (sources : List (String × Path)) (count : Int) (results : List SearchResult)
      (res' : List SearchResult),
      count = (results.length : Int) → (results.length : Int) ≤ k →
      rgSourcesGo env q c k pat sources count results = .ok res' →
      (res'.length : Int) ≤ k := by
  intro sources
  induction sources with
  | nil =>
    intro count results res' h hle heq
    simp only [rgSourcesGo, Except.ok.injEq] at heq
    subst heq
    exact hle
  | cons sp rest ih =>
    intro count results res' h hle heq
    obtain ⟨name, dir⟩ := sp
    by_cases hk : count ≥ k
    · simp only [rgSourcesGo, if_pos hk, Except.ok.injEq] at heq
      subst heq
      exact hle
    · simp only [rgSourcesGo, if_neg hk] at heq
      cases hrun : env.rgRun q c pat dir with
      | error e =>
        rw [hrun] at heq
        simp only at heq
        exact ih count results res' h hle heq
      | ok lines =>
        rw [hrun] at heq
        simp only at heq
        cases hpl : rgParseLines env name dir k lines count results with
        | error e =>
          rw [hpl] at heq
          simp only at heq
          exact absurd heq (by simp)
        | ok rc =>
          obtain ⟨results', count'⟩ := rc
          rw [hpl] at heq
          simp only at heq
          obtain ⟨h1, h2⟩ := rgParseLines_len env name dir k lines count results
            results' count' h hle hpl
          exact ih count' results' res' h1 h2 heq

theorem ripgrep_search_len (env : ToolEnv) (idx : NotesIndex) (q : String) (k c : Int)
    (hk : 0 < k) (res : List SearchResult)
    (heq : ripgrep_search env idx q k c = .ok res) : ((res.length : Int)) ≤ k := by
  exact rgSourcesGo_len env q c k (includePattern idx.extensions) idx.sources 0 []
    res (by simp) (by simp; omega) heq

theorem grepParseLines_len (name : String) (dir : Path) (k : Int) :
    ∀ (lines : List String) (count : Int) (results : List SearchResult)
      (cur : Option SearchResult),
      count = (results.length : Int) → (results.length : Int) ≤ k →
      (∀ r, cur = some r → count < k) →
      (grepParseLines name dir k lines count results cur).2 =
        (((grepParseLines name dir k lines count results cur).1).length : Int) ∧
      ((((grepParseLines name dir k lines count results cur).1).length : Int)) ≤ k := by
  intro lines
  induction lines with
  | nil =>
    intro count results cur h hle hcur
    cases cur with
    | none => simpa [grepParseLines, grepFlush] using ⟨h, hle⟩
    | some r =>
      have hlt : count < k := hcur r rfl
      simp only [grepParseLines, grepFlush]
      constructor
      · simp only [List.length_append, List.length_cons, List.length_nil]
        push_cast
        omega
      · simp only [List.length_append, List.length_cons, List.length_nil]
        push_cast
        omega
  | cons line rest ih =>
    intro count results cur h hle hcur
    by_cases hk : count ≥ k
    · cases cur with
      | none => simpa [grepParseLines, grepFlush, if_pos hk] using ⟨h, hle⟩
      | some r => exact absurd (hcur r rfl) (by omega)
    · simp only [grepParseLines, if_neg hk]
      by_cases hdash : pyStartsWith line "--" = true
      · rw [if_pos hdash]
        cases cur with
        | some r =>
          refine ih (count + 1) (results ++ [r]) none ?_ ?_ ?_
          · simp only [List.length_append, List.length_cons, List.length_nil]
            push_cast
            omega
          · simp only [List.length_append, List.length_cons, List.length_nil]
            push_cast
            omega
          · intro r' hr'
            exact absurd hr' (by simp)
        | none =>
          refine ih count results none h hle ?_
          intro r' hr'
          exact absurd hr' (by simp)
      · rw [if_neg hdash]
        by_cases hcol : strContains line ":" = true
        · rw [if_pos hcol]
          cases hsp : pySplitColon2 line with
          | nil => exact ih count results cur h hle hcur
          | cons p0 t0 =>
            cases t0 with
            | nil => exact ih count results cur h hle hcur
            | cons p1 t1 =>
              cases t1 with
              | nil => exact ih count results cur h hle hcur
              | cons p2 t2 =>
                cases t2 with
                | cons p3 t3 => exact ih count results cur h hle hcur
                | nil =>
                  simp only
                  by_cases hpre : isPre dir (pathOfString p0) = true
                  · rw [if_pos hpre]
                    cases hint : pyInt? p1 with
                    | none => exact ih count results cur h hle hcur
                    | some ln =>
                      refine ih count results _ h hle ?_
                      intro r' hr'
                      omega
                  · rw [if_neg hpre]
                    exact ih count results cur h hle hcur
        · rw [if_neg hcol]
          cases cur with
          | some r =>
            refine ih count results _ h hle ?_
            intro r' hr'
            exact hcur r rfl
          | none =>
            refine ih count results none h hle ?_
            intro r' hr'
            exact absurd hr' (by simp)

theorem grepExtsGo_len (env : ToolEnv) (q : String) (c k : Int) (name : String) (dir : Path) :
    ∀ (exts : List String) (count : Int) (results : List SearchResult),
      count = (results.length : Int) → (results.length : Int) ≤ k →
      (grepExtsGo env q c k name dir exts count results).2 =
        (((grepExtsGo env q c k name dir exts count results).1).length : Int) ∧
      ((((grepExtsGo env q c k name dir exts count results).1).length : Int)) ≤ k := by
  intro exts
  induction exts with
  | nil =>
    intro count results h hle
    simpa [grepExtsGo] using ⟨h, hle⟩
  | cons ext rest ih =>
    intro count results h hle
    simp only [grepExtsGo]
    cases hrun : env.grepRun q c ext dir with
    | error e => exact ih count results h hle
    | ok lines =>
      simp only
      obtain ⟨h1, h2⟩ := grepParseLines_len name dir k lines count results none h hle
        (by intro r hr; exact absurd hr (by simp))
      exact ih _ _ h1 h2

theorem grepSourcesGo_len (env : ToolEnv) (q : String) (c k : Int) (exts : List String) :
    ∀ (sources : List (String × Path)) (count : Int) (results : List SearchResult),
      count = (results.length : Int) → (results.length : Int) ≤ k →
      (((grepSourcesGo env q c k exts sources count results).length : Int)) ≤ k := by
  intro sources
  induction sources with
  | nil =>
    intro count results h hle
    simpa [grepSourcesGo] using hle
  | cons sp rest ih =>
    intro count results h hle
    obtain ⟨name, dir⟩ := sp
    by_cases hk : count ≥ k
    · simpa [grepSourcesGo, if_pos hk] using hle
    · simp only [grepSourcesGo, if_neg hk]
      obtain ⟨h1, h2⟩ := grepExtsGo_len env q c k name dir exts count results h hle
      exact ih _ _ h1 h2

theorem grep_search_len (env : ToolEnv) (idx : NotesIndex) (q : String) (k c : Int)
    (hk : 0 < k) : ((grep_search env idx q k c).length : Int) ≤ k := by
  exact grepSourcesGo_len env q c k idx.extensions idx.sources 0 [] (by simp) (by simp; omega)

/-- C1: for every query, every positive `max_results` `k` and every
`context_lines` value, `search` returns at most `k` results, whichever
backend runs (ripgrep, grep, or the in-memory fallback, including the
fallback taken after a backend error). -/
theorem C1_search_cap (env : ToolEnv) (fs : FS) (idx : NotesIndex) (q : String)
    (k c : Int) (hk : 0 < k) : ((search env fs idx q k c).length : Int) ≤ k := by
  unfold search
  by_cases htools : (!(env.rgAvailable || env.grepAvailable)) = true
  · rw [if_pos htools]
    exact basic_search_len fs idx.notes q k hk
  · rw [if_neg htools]
    by_cases hrg : env.rgAvailable = true
    · rw [if_pos hrg]
      cases hr : ripgrep_search env idx q k c with
      | error e =>
        simp only
        exact basic_search_len fs idx.notes q k hk
      | ok res =>
        simp only
        exact ripgrep_search_len env idx q k c hk res hr
    · rw [if_neg hrg]
      simp only
      exact grep_search_len env idx q k c hk

/-! ### Dict lemmas: lookup after a sequence of assignments -/

theorem lookupA_insertA (m : List (String × Path)) (k : String) (v : Path) (k' : String) :
    lookupA (insertA m k v) k' = if k' = k then some v else lookupA m k' := by
  induction m with
  | nil =>
    by_cases h : k' = k
    · subst h
      simp [insertA, lookupA]
    · have hb : (k == k') = false := by
        simp only [beq_eq_false_iff_ne, ne_eq]
        exact fun hh => h hh.symm
      simp [insertA, lookupA, hb, h]
  | cons q rest ih =>
    by_cases hq : q.1 = k
    · have hb : (q.1 == k) = true := by simp [hq]
      simp only [insertA, hb, if_true]
      by_cases h : k' = k
      · subst h
        simp [lookupA]
      · have hb1 : (k == k') = false := by
          simp only [beq_eq_false_iff_ne, ne_eq]
          exact fun hh => h hh.symm
        have hb2 : (q.1 == k') = false := by
          simp only [beq_eq_false_iff_ne, ne_eq, hq]
          exact fun hh => h hh.symm
        simp [lookupA, hb1, hb2, h]
    · have hb : (q.1 == k) = false := by simp [hq]
      simp only [insertA, hb, Bool.false_eq_true, if_false]
      by_cases hq' : q.1 = k'
      · have hb' : (q.1 == k') = true := by simp [hq']
        have hne : ¬(k' = k) := fun hh => hq (hq' ▸ hh)
        simp [lookupA, hb', hne]
      · have hb' : (q.1 == k') = false := by simp [hq']
        simp [lookupA, hb', ih]

theorem lookupA_updateAll (ps : List (String × Path)) :
    ∀ (m : List (String × Path)) (k : String),
      lookupA (updateAll m ps) k =
        match lastVal ps k with
        | some v => some v
        | none => lookupA m k := by
  induction ps with
  | nil =>
    intro m k
    simp [updateAll, lastVal]
  | cons kv rest ih =>
    intro m k
    have hstep : updateAll m (kv :: rest) = updateAll (insertA m kv.1 kv.2) rest := rfl
    rw [hstep, ih]
    cases hl : lastVal rest k with
    | some v => simp [lastVal, hl]
    | none =>
      simp only [lastVal, hl]
      rw [lookupA_insertA]
      by_cases h : k = kv.1
      · have hb : (kv.1 == k) = true := by simp [h]
        simp [h, hb]
      · have hb : (kv.1 == k) = false := by
          simp only [beq_eq_false_iff_ne, ne_eq]
          exact fun hh => h hh.symm
        simp [h, hb]

theorem lastVal_mem (ps : List (String × Path)) (k : String) (v : Path) :
    lastVal ps k = some v → (k, v) ∈ ps := by
  induction ps with
  | nil => intro h; exact absurd h (by simp [lastVal])
  | cons kv rest ih =>
    intro h
    simp only [lastVal] at h
    cases hl : lastVal rest k with
    | some w =>
      rw [hl] at h
      simp only [Option.some.injEq] at h
      subst h
      exact List.mem_cons_of_mem kv (ih hl)
    | none =>
      rw [hl] at h
      by_cases hb : (kv.1 == k) = true
      · rw [if_pos hb] at h
        simp only [Option.some.injEq] at h
        have : kv = (k, v) := by
          obtain ⟨k0, v0⟩ := kv
          simp only [beq_iff_eq] at hb
          simp only at h hb
          rw [hb, h]
        exact this ▸ List.mem_cons_self kv rest
      · rw [if_neg hb] at h
        exact absurd h (by simp)

theorem lastVal_of_mem_unique (ps : List (String × Path)) (k : String) (f : Path)
    (hmem : (k, f) ∈ ps) (huniq : ∀ kv ∈ ps, kv.1 = k → kv.2 = f) :
    lastVal ps k = some f := by
  induction ps with
  | nil => exact absurd hmem (by simp)
  | cons kv rest ih =>
    simp only [lastVal]
    cases hl : lastVal rest k with
    | some v =>
      have hv : (k, v) ∈ rest := lastVal_mem rest k v hl
      have := huniq (k, v) (List.mem_cons_of_mem kv hv) rfl
      simp only at this
      rw [this]
    | none =>
      rcases List.mem_cons.mp hmem with hhead | htail
      · have hb : (kv.1 == k) = true := by simp [← hhead]
        rw [if_pos hb]
        rw [← hhead]
      · have := ih htail (fun q hq hk => huniq q (List.mem_cons_of_mem kv hq) hk)
        rw [hl] at this
        exact absurd this (by simp)

/-! ### The in-memory scan: line numbers and emitted results (C3, C4) -/

theorem findLineNumber_pos (ql : String) :
    ∀ (lines : List String) (i : Nat),
      (∃ l ∈ lines, strContains (pyLower l) ql = true) →
      1 ≤ findLineNumber ql lines i := by
  intro lines
  induction lines with
  | nil =>
    intro i h
    obtain ⟨l, hl, _⟩ := h
    exact absurd hl (by simp)
  | cons l rest ih =>
    intro i h
    by_cases hc : strContains (pyLower l) ql = true
    · simp [findLineNumber, hc]
    · simp only [findLineNumber, hc, Bool.false_eq_true, if_false]
      obtain ⟨l', hl', hc'⟩ := h
      rcases List.mem_cons.mp hl' with rfl | hmem
      · exact absurd hc' hc
      · exact ih (i + 1) ⟨l', hmem, hc'⟩

theorem basicGo_pos (fs : FS) (ql : String) (k : Int) :
    ∀ (notes : List (String × Path)) (count : Int) (results : List SearchResult),
      (∀ r ∈ results, 1 ≤ r.line_number) →
      (∀ kv ∈ notes, ∀ content, fs.readFile kv.2 = .ok content →
        strContains (pyLower content) ql = true →
        ∃ l ∈ splitlines content, strContains (pyLower l) ql = true) →
      ∀ r ∈ basicGo fs ql k notes count results, 1 ≤ r.line_number := by
  intro notes
  induction notes with
  | nil =>
    intro count results hres _ r hr
    exact hres r hr
  | cons kv rest ih =>
    intro count results hres hnotes r hr
    obtain ⟨noteId, p⟩ := kv
    by_cases hk : count ≥ k
    · rw [show basicGo fs ql k ((noteId, p) :: rest) count results = results by
        simp [basicGo, if_pos hk]] at hr
      exact hres r hr
    · simp only [basicGo, if_neg hk] at hr
      cases hrf : fs.readFile p with
      | error err =>
        rw [hrf] at hr
        simp only at hr
        exact ih count results hres
          (fun q hq => hnotes q (List.mem_cons_of_mem _ hq)) r hr
      | ok content =>
        rw [hrf] at hr
        simp only at hr
        by_cases hc : strContains (pyLower content) ql = true
        · simp only [hc, if_true] at hr
          refine ih (count + 1) _ ?_ (fun q hq => hnotes q (List.mem_cons_of_mem _ hq)) r hr
          intro r' hr'
          rcases List.mem_append.mp hr' with hmem | hmem
          · exact hres r' hmem
          · have hline := hnotes (noteId, p) (List.mem_cons_self _ _) content hrf hc
            have hpos : 1 ≤ findLineNumber ql (splitlines content) 0 :=
              findLineNumber_pos ql (splitlines content) 0 hline
            have : r' = { note_id := noteId
                          line_number := (findLineNumber ql (splitlines content) 0 : Int)
                          context := basicContext (splitlines content)
                            (findLineNumber ql (splitlines content) 0) } := by
              simpa using hmem
            rw [this]
            simp only
            exact_mod_cast hpos
        · simp only [hc, Bool.false_eq_true, if_false] at hr
          exact ih count results hres
            (fun q hq => hnotes q (List.mem_cons_of_mem _ hq)) r hr

/-- C3 (amended): every result of the in-memory fallback has a positive
(1-based) `line_number` provided the lowercased query occurs inside some
single line of each matching file; a query that matches the content only
across a line boundary yields `line_number = 0`. -/
theorem C3_basic_line_number (fs : FS) (notes : List (String × Path)) (q : String)
    (k : Int)
    (h : ∀ kv ∈ notes, ∀ content, fs.readFile kv.2 = .ok content →
      strContains (pyLower content) (pyLower q) = true →
      ∃ l ∈ splitlines content, strContains (pyLower l) (pyLower q) = true) :
    ∀ r ∈ basic_search fs notes q k, 1 ≤ r.line_number :=
  basicGo_pos fs (pyLower q) k notes 0 [] (by simp) h

theorem basicGo_spec (fs : FS) (ql : String) (k : Int) :
    ∀ (notes : List (String × Path)) (count : Int) (results : List SearchResult),
      count = (results.length : Int) →
      count + ((notes.filter (basicIsMatch fs ql)).length : Int) ≤ k →
      basicGo fs ql k notes count results =
        results ++ (notes.filter (basicIsMatch fs ql)).map (basicResultFor fs ql) := by
  intro notes
  induction notes with
  | nil =>
    intro count results _ _
    simp [basicGo]
  | cons kv rest ih =>
    intro count results h hcap
    obtain ⟨noteId, p⟩ := kv
    by_cases hk : count ≥ k
    · have hnil : ((noteId, p) :: rest).filter (basicIsMatch fs ql) = [] := by
        have hlen : (((noteId, p) :: rest).filter (basicIsMatch fs ql)).length = 0 := by
          omega
        exact List.length_eq_zero.mp hlen
      simp [basicGo, if_pos hk, hnil]
    · simp only [basicGo, if_neg hk]
      cases hrf : fs.readFile p with
      | error err =>
        have hm : basicIsMatch fs ql (noteId, p) = false := by
          simp [basicIsMatch, hrf]
        have hfil : ((noteId, p) :: rest).filter (basicIsMatch fs ql) =
            rest.filter (basicIsMatch fs ql) := by
          simp [List.filter_cons, hm]
        rw [hfil] at hcap
        rw [hfil]
        exact ih count results h hcap
      | ok content =>
        by_cases hc : strContains (pyLower content) ql = true
        · have hm : basicIsMatch fs ql (noteId, p) = true := by
            simp [basicIsMatch, hrf, hc]
          have hfil : ((noteId, p) :: rest).filter (basicIsMatch fs ql) =
              (noteId, p) :: rest.filter (basicIsMatch fs ql) := by
            simp [List.filter_cons, hm]
          simp only [hc, if_true]
          rw [hfil] at hcap
          simp only [List.length_cons] at hcap
          rw [ih (count + 1) (results ++ [_]) ?_ ?_]
          · rw [hfil, List.map_cons, List.append_assoc, List.singleton_append]
            have hres : basicResultFor fs ql (noteId, p) =
                { note_id := noteId
                  line_number := (findLineNumber ql (splitlines content) 0 : Int)
                  context := basicContext (splitlines content)
                    (findLineNumber ql (splitlines content) 0) } := by
              simp [basicResultFor, hrf]
            rw [hres]
          · simp only [List.length_append, List.length_cons, List.length_nil]
            push_cast
            omega
          · push_cast at hcap
            omega
        · have hm : basicIsMatch fs ql (noteId, p) = false := by
            simp [basicIsMatch, hrf, hc]
          have hfil : ((noteId, p) :: rest).filter (basicIsMatch fs ql) =
              rest.filter (basicIsMatch fs ql) := by
            simp [List.filter_cons, hm]
          simp only [hc, Bool.false_eq_true, if_false]
          rw [hfil] at hcap
          rw [hfil]
          exact ih count results h hcap

/-- C4 (amended): when the number of matching files does not exceed
`max_results`, the in-memory fallback emits exactly one result per file
whose lowercased content contains the lowercased query, in index order;
each result's context window spans up to 2 lines before and 2 lines
after the first matching line (the slice
`lines[max(0, n - 3) : min(len(lines), n + 2)]` around the 1-based match
line `n`). -/
theorem C4_basic_scan (fs : FS) (notes : List (String × Path)) (q : String) (k : Int)
    (hcap : ((notes.filter (basicIsMatch fs (pyLower q))).length : Int) ≤ k) :
    basic_search fs notes q k =
      (notes.filter (basicIsMatch fs (pyLower q))).map (basicResultFor fs (pyLower q)) := by
  have := basicGo_spec fs (pyLower q) k notes 0 [] (by simp) (by simpa using hcap)
  simpa [basic_search] using this

/-! ### Frame, error-path and graceful-degradation theorems -/

theorem basicGo_nomatch (fs : FS) (ql : String) (k : Int) :
    ∀ (notes : List (String × Path)) (count : Int) (results : List SearchResult),
      (∀ kv ∈ notes, basicIsMatch fs ql kv = false) →
      basicGo fs ql k notes count results = results := by
  intro notes
  induction notes with
  | nil => intro count results _; rfl
  | cons kv rest ih =>
    intro count results h
    obtain ⟨noteId, p⟩ := kv
    by_cases hk : count ≥ k
    · simp [basicGo, if_pos hk]
    · simp only [basicGo, if_neg hk]
      have hm := h (noteId, p) (List.mem_cons_self _ _)
      cases hrf : fs.readFile p with
      | error e => exact ih count results (fun q hq => h q (List.mem_cons_of_mem _ hq))
      | ok content =>
        have hc : strContains (pyLower content) ql = false := by
          simpa [basicIsMatch, hrf] using hm
        simp only [hc, Bool.false_eq_true, if_false]
        exact ih count results (fun q hq => h q (List.mem_cons_of_mem _ hq))

theorem basic_search_nomatch (fs : FS) (notes : List (String × Path)) (q : String)
    (k : Int) (h : ∀ kv ∈ notes, basicIsMatch fs (pyLower q) kv = false) :
    basic_search fs notes q k = [] :=
  basicGo_nomatch fs (pyLower q) k notes 0 [] h

/-- C10: the read-only operations `search`, `list` and `read` leave the
index unchanged: `notes`, `sources` and `extensions` after each call are
what they were before (the methods only read the index state). -/
theorem C10_readonly_frame (env : ToolEnv) (fs : FS) (idx : NotesIndex) (q : String)
    (k c : Int) (noteId : String) (oq : Option String) :
    (searchST env fs idx q k c).2.notes = idx.notes ∧
    (searchST env fs idx q k c).2.sources = idx.sources ∧
    (searchST env fs idx q k c).2.extensions = idx.extensions ∧
    (read_noteST fs idx noteId).2.notes = idx.notes ∧
    (read_noteST fs idx noteId).2.sources = idx.sources ∧
    (read_noteST fs idx noteId).2.extensions = idx.extensions ∧
    (list_notesST idx oq).2.notes = idx.notes ∧
    (list_notesST idx oq).2.sources = idx.sources ∧
    (list_notesST idx oq).2.extensions = idx.extensions :=
  ⟨rfl, rfl, rfl, rfl, rfl, rfl, rfl, rfl, rfl⟩

/-- C7: `read_note` on an identifier absent from the index fails with the
not-found `ValueError` (never a default value); on a present identifier a
read failure is reported as the read `ValueError` carrying the identifier
and the underlying cause, and a successful read returns the full
content. -/
theorem C7_read_note_errors (fs : FS) (idx : NotesIndex) (noteId : String) :
    (lookupA idx.notes noteId = none →
      read_note fs idx noteId =
        .error ("Note ID " ++ sq ++ noteId ++ sq ++ " not found in index")) ∧
    (∀ p e, lookupA idx.notes noteId = some p → fs.readFile p = .error e →
      read_note fs idx noteId = .error ("Failed to read note " ++ noteId ++ ": " ++ e)) ∧
    (∀ p content, lookupA idx.notes noteId = some p → fs.readFile p = .ok content →
      read_note fs idx noteId = .ok content) := by
  refine ⟨?_, ?_, ?_⟩
  · intro h
    simp [read_note, get_note_path, h]
  · intro p e h1 h2
    simp [read_note, get_note_path, h1, h2]
  · intro p content h1 h2
    simp [read_note, get_note_path, h1, h2]

/-- C8: `search` never fails outright: with no backend available it runs
the in-memory scan; if the chosen backend raises an unexpected error the
whole call falls back (once) to the in-memory scan; and with no matching
note it returns the empty list rather than an error. -/
theorem C8_search_graceful (env : ToolEnv) (fs : FS) (idx : NotesIndex) (q : String)
    (k c : Int) :
    (env.rgAvailable = false → env.grepAvailable = false →
      search env fs idx q k c = basic_search fs idx.notes q k) ∧
    (env.rgAvailable = true → ripgrep_search env idx q k c = .error () →
      search env fs idx q k c = basic_search fs idx.notes q k) ∧
    ((∀ kv ∈ idx.notes, basicIsMatch fs (pyLower q) kv = false) →
      env.rgAvailable = false → env.grepAvailable = false →
      search env fs idx q k c = []) := by
  refine ⟨?_, ?_, ?_⟩
  · intro h1 h2
    simp [search, h1, h2]
  · intro h1 h2
    simp [search, h1, h2]
  · intro hm h1 h2
    rw [show search env fs idx q k c = basic_search fs idx.notes q k by simp [search, h1, h2]]
    exact basic_search_nomatch fs idx.notes q k hm

/-- C5: source registration resolves the directory argument (expanduser
then symlink-resolving resolve); it fails with the registration
`ValueError` whenever the resolved path does not exist or is not a
directory, and on success it inserts/overwrites `sources[name]` with the
resolved path (the name defaulting to the directory's base name). -/
theorem C5_register_source (env : DirEnv) (idx : NotesIndex) (dirPath : Path)
    (nameOpt : Option String) :
    (env.pathExists (env.resolve (env.expanduser dirPath)) = false ∨
        env.isDir (env.resolve (env.expanduser dirPath)) = false →
      add_notes_dir env idx dirPath nameOpt =
        .error ("not a directory: " ++ joinPath (env.resolve (env.expanduser dirPath)))) ∧
    (env.isDir (env.resolve (env.expanduser dirPath)) = true →
      add_notes_dir env idx dirPath nameOpt =
        .ok { idx with
              sources := insertA idx.sources
                (nameOpt.getD (fileName (env.resolve (env.expanduser dirPath))))
                (env.resolve (env.expanduser dirPath)) }) := by
  constructor
  · intro h
    have hd : env.isDir (env.resolve (env.expanduser dirPath)) = false := by
      rcases h with h | h
      · cases hb : env.isDir (env.resolve (env.expanduser dirPath)) with
        | false => rfl
        | true => exact absurd (env.isDir_exists _ hb) (by simp [h])
      · exact h
    simp [add_notes_dir, hd]
  · intro h
    simp [add_notes_dir, add_source, h, env.resolve_idem]

/-! ### Identifier strings: splitting at an absent separator is injective -/

theorem strExt {s t : String} (h : s.data = t.data) : s = t := by
  cases s
  cases t
  exact congrArg String.mk h

theorem sepSplit {sep : Char} :
    ∀ (u₁ u₂ v₁ v₂ : List Char), sep ∉ u₁ → sep ∉ u₂ →
      u₁ ++ sep :: v₁ = u₂ ++ sep :: v₂ → u₁ = u₂ ∧ v₁ = v₂ := by
  intro u₁
  induction u₁ with
  | nil =>
    intro u₂ v₁ v₂ h1 h2 heq
    cases u₂ with
    | nil => simpa using heq
    | cons c t =>
      simp only [List.nil_append, List.cons_append, List.cons.injEq] at heq
      exact absurd (by rw [heq.1]; exact List.mem_cons_self c t) h2
  | cons a t ih =>
    intro u₂ v₁ v₂ h1 h2 heq
    cases u₂ with
    | nil =>
      simp only [List.nil_append, List.cons_append, List.cons.injEq] at heq
      exact absurd (by rw [← heq.1]; exact List.mem_cons_self a t) h1
    | cons b t₂ =>
      simp only [List.cons_append, List.cons.injEq] at heq
      obtain ⟨hab, hrest⟩ := heq
      obtain ⟨h3, h4⟩ := ih t₂ v₁ v₂ (fun hm => h1 (List.mem_cons_of_mem a hm))
        (fun hm => h2 (List.mem_cons_of_mem b hm)) hrest
      exact ⟨by rw [hab, h3], h4⟩

theorem appendSepInj (sep : Char) (sepS : String) (hsep : sepS.data = [sep])
    (a b x y : String) (ha : sep ∉ a.data) (hb : sep ∉ b.data)
    (heq : a ++ sepS ++ x = b ++ sepS ++ y) : a = b ∧ x = y := by
  have hd := congrArg String.data heq
  rw [String.data_append, String.data_append, String.data_append, String.data_append,
    hsep, List.append_assoc, List.append_assoc, List.singleton_append,
    List.singleton_append] at hd
  obtain ⟨h1, h2⟩ := sepSplit a.data b.data x.data y.data ha hb hd
  exact ⟨strExt h1, strExt h2⟩

theorem joinPath_cons_cons (c d : String) (t : List String) :
    joinPath (c :: d :: t) = c ++ "/" ++ joinPath (d :: t) := rfl

theorem joinPath_inj :
    ∀ (l₁ l₂ : List String), l₁ ≠ [] → l₂ ≠ [] →
      (∀ c ∈ l₁, wfComp c) → (∀ c ∈ l₂, wfComp c) →
      joinPath l₁ = joinPath l₂ → l₁ = l₂ := by
  intro l₁
  induction l₁ with
  | nil => intro l₂ h; exact absurd rfl h
  | cons a t ih =>
    intro l₂ _ hn2 hw1 hw2 heq
    cases l₂ with
    | nil => exact absurd rfl hn2
    | cons b t₂ =>
      cases t with
      | nil =>
        cases t₂ with
        | nil =>
          rw [show joinPath [a] = a from rfl, show joinPath [b] = b from rfl] at heq
          rw [heq]
        | cons c₂ t₂' =>
          rw [show joinPath [a] = a from rfl, joinPath_cons_cons] at heq
          have hd := congrArg String.data heq
          rw [String.data_append, String.data_append] at hd
          have hmem : '/' ∈ a.data := by
            rw [hd, show ("/" : String).data = ['/'] from rfl]
            simp
          exact absurd hmem (hw1 a (List.mem_cons_self a [])).2
      | cons c₁ t₁' =>
        cases t₂ with
        | nil =>
          rw [show joinPath [b] = b from rfl, joinPath_cons_cons] at heq
          have hd := congrArg String.data heq
          rw [String.data_append, String.data_append] at hd
          have hmem : '/' ∈ b.data := by
            rw [← hd, show ("/" : String).data = ['/'] from rfl]
            simp
          exact absurd hmem (hw2 b (List.mem_cons_self b [])).2
        | cons c₂ t₂' =>
          rw [joinPath_cons_cons, joinPath_cons_cons] at heq
          obtain ⟨h1, h2⟩ := appendSepInj '/' "/" rfl a b _ _
            (hw1 a (List.mem_cons_self a _)).2 (hw2 b (List.mem_cons_self b _)).2 heq
          have ht := ih (c₂ :: t₂') (by simp) (by simp)
            (fun c hc => hw1 c (List.mem_cons_of_mem a hc))
            (fun c hc => hw2 c (List.mem_cons_of_mem b hc)) h2
          rw [h1, ht]

theorem value_eq_of_nodup_keys :
    ∀ (l : List (String × Path)) (k : String) (v₁ v₂ : Path),
      (l.map Prod.fst).Nodup → (k, v₁) ∈ l → (k, v₂) ∈ l → v₁ = v₂ := by
  intro l
  induction l with
  | nil =>
    intro k v₁ v₂ _ h
    exact absurd h (by simp)
  | cons q rest ih =>
    intro k v₁ v₂ hnd h1 h2
    simp only [List.map_cons, List.nodup_cons] at hnd
    rcases List.mem_cons.mp h1 with e1 | m1 <;> rcases List.mem_cons.mp h2 with e2 | m2
    · rw [← e2] at e1
      exact (Prod.mk.injEq _ _ _ _ ▸ e1).2
    · exfalso
      apply hnd.1
      have hk : k ∈ List.map Prod.fst rest := by
        simpa using List.mem_map_of_mem Prod.fst m2
      rw [← e1]
      exact hk
    · exfalso
      apply hnd.1
      have hk : k ∈ List.map Prod.fst rest := by
        simpa using List.mem_map_of_mem Prod.fst m1
      rw [← e2]
      exact hk
    · exact ih k v₁ v₂ hnd.2 m1 m2

/-! ### Scan pairs: membership and the identifier round-trip -/

theorem isPre_iff : ∀ (d p : List String), isPre d p = true ↔ ∃ t, p = d ++ t := by
  intro d
  induction d with
  | nil =>
    intro p
    simp [isPre]
  | cons a as ih =>
    intro p
    cases p with
    | nil =>
      simp [isPre]
    | cons b bs =>
      simp only [isPre, Bool.and_eq_true, beq_iff_eq]
      constructor
      · rintro ⟨rfl, h⟩
        obtain ⟨t, rfl⟩ := (ih bs).mp h
        exact ⟨t, rfl⟩
      · rintro ⟨t, ht⟩
        simp only [List.cons_append, List.cons.injEq] at ht
        exact ⟨ht.1.symm, (ih bs).mpr ⟨t, ht.2⟩⟩

theorem isStrictlyUnder_append (d t : List String) (ht : t ≠ []) :
    isStrictlyUnder d (d ++ t) = true := by
  simp only [isStrictlyUnder, Bool.and_eq_true, decide_eq_true_eq]
  refine ⟨(isPre_iff d (d ++ t)).mpr ⟨t, rfl⟩, ?_⟩
  have : 0 < t.length := List.length_pos.mpr ht
  simp only [List.length_append]
  omega

theorem isStrictlyUnder_decomp (d p : List String) (h : isStrictlyUnder d p = true) :
    ∃ t, t ≠ [] ∧ p = d ++ t ∧ p.drop d.length = t := by
  simp only [isStrictlyUnder, Bool.and_eq_true, decide_eq_true_eq] at h
  obtain ⟨t, rfl⟩ := (isPre_iff d p).mp h.1
  refine ⟨t, ?_, rfl, List.drop_left d t⟩
  have := h.2
  simp only [List.length_append] at this
  intro hnil
  rw [hnil] at this
  simp at this

theorem mem_scanPairs (fs : FS) (sources : List (String × Path)) (exts : List String)
    (kv : String × Path) :
    kv ∈ scanPairs fs sources exts ↔
      ∃ sp ∈ sources, ∃ e ∈ exts, ∃ f ∈ fs.files,
        isStrictlyUnder sp.2 f = true ∧ matchesExtPattern e f = true ∧
        kv = (sp.1 ++ ":" ++ joinPath (f.drop sp.2.length), f) := by
  constructor
  · intro h
    simp only [scanPairs, List.mem_flatMap, List.mem_map, rglobExt, List.mem_filter,
      Bool.and_eq_true] at h
    obtain ⟨sp, hsp, e, he, f, ⟨hf, hu, hm⟩, hkv⟩ := h
    exact ⟨sp, hsp, e, he, f, hf, hu, hm, hkv.symm⟩
  · rintro ⟨sp, hsp, e, he, f, hf, hu, hm, hkv⟩
    simp only [scanPairs, List.mem_flatMap, List.mem_map, rglobExt, List.mem_filter,
      Bool.and_eq_true]
    exact ⟨sp, hsp, e, he, f, ⟨hf, hu, hm⟩, hkv.symm⟩

/-- Key step shared by the round-trip and scan-exactness theorems: after
a scan, the last assignment to the identifier `"s:p"` carries the
absolute path `R ++ p`. -/
theorem lastVal_scanPairs_hit (fs : FS) (sources : List (String × Path)) (exts : List String)
    (s : String) (R : Path) (p : Path) (e : String)
    (hsrc : (s, R) ∈ sources)
    (hnodup : (sources.map Prod.fst).Nodup)
    (hcolon : ∀ nm ∈ sources.map Prod.fst, ':' ∉ nm.data)
    (hwf : ∀ f ∈ fs.files, ∀ c ∈ f, wfComp c)
    (hmem : (R ++ p) ∈ fs.files)
    (hp : p ≠ [])
    (he : e ∈ normalizeExts exts)
    (hext : matchesExtPattern e (R ++ p) = true) :
    lastVal (scanPairs fs sources (normalizeExts exts)) (s ++ ":" ++ joinPath p) =
      some (R ++ p) := by
  have hunder : isStrictlyUnder R (R ++ p) = true := isStrictlyUnder_append R p hp
  have hpair : (s ++ ":" ++ joinPath p, R ++ p) ∈
      scanPairs fs sources (normalizeExts exts) := by
    refine (mem_scanPairs fs sources (normalizeExts exts) _).mpr
      ⟨(s, R), hsrc, e, he, R ++ p, hmem, hunder, hext, ?_⟩
    rw [List.drop_left]
  have huniq : ∀ kv ∈ scanPairs fs sources (normalizeExts exts),
      kv.1 = s ++ ":" ++ joinPath p → kv.2 = R ++ p := by
    intro kv hkv hk1
    obtain ⟨sp, hsp, e', _, f', hf', hu', _, hkv_eq⟩ :=
      (mem_scanPairs fs sources (normalizeExts exts) kv).mp hkv
    obtain ⟨s', R'⟩ := sp
    obtain ⟨t, ht_ne, hft, hdrop⟩ := isStrictlyUnder_decomp R' f' hu'
    have hk1' : s' ++ ":" ++ joinPath (f'.drop R'.length) = s ++ ":" ++ joinPath p := by
      rw [hkv_eq] at hk1
      exact hk1
    have hcol1 : ':' ∉ s'.data := hcolon s' (by simpa using List.mem_map_of_mem Prod.fst hsp)
    have hcol2 : ':' ∉ s.data := hcolon s (by simpa using List.mem_map_of_mem Prod.fst hsrc)
    obtain ⟨hs_eq, hj_eq⟩ := appendSepInj ':' ":" rfl s' s _ _ hcol1 hcol2 hk1'
    have hRR : R' = R := by
      refine value_eq_of_nodup_keys sources s R' R hnodup ?_ hsrc
      rw [← hs_eq]
      exact hsp
    have hwf_t : ∀ c ∈ t, wfComp c := by
      intro c hc
      refine hwf f' hf' c ?_
      rw [hft]
      exact List.mem_append_right R' hc
    have hwf_p : ∀ c ∈ p, wfComp c := by
      intro c hc
      exact hwf (R ++ p) hmem c (List.mem_append_right R hc)
    have ht_eq : t = p := by
      refine joinPath_inj t p ht_ne hp hwf_t hwf_p ?_
      rw [← hdrop]
      exact hj_eq
    rw [hkv_eq]
    simp only
    rw [hft, hRR, ht_eq]
  exact lastVal_of_mem_unique _ _ _ hpair huniq

/-- C2: identifier round-trip.  For a registered source `s` with root `R`
(source names pairwise distinct and colon-free, per the spec's data-model
invariants, and path components well-formed) and a regular file at
nonempty relative path `p` under `R` whose name matches an extension of
the scanned set, `scan` followed by `lookup` of `"s:p"` returns that
file's absolute path. -/
theorem C2_roundtrip (fs : FS) (idx : NotesIndex) (exts : List String)
    (s : String) (R : Path) (p : Path) (e : String)
    (hsrc : (s, R) ∈ idx.sources)
    (hnodup : (idx.sources.map Prod.fst).Nodup)
    (hcolon : ∀ nm ∈ idx.sources.map Prod.fst, ':' ∉ nm.data)
    (hwf : ∀ f ∈ fs.files, ∀ c ∈ f, wfComp c)
    (hmem : (R ++ p) ∈ fs.files)
    (hp : p ≠ [])
    (he : e ∈ normalizeExts exts)
    (hext : matchesExtPattern e (R ++ p) = true) :
    get_note_path (index_sources fs idx exts) (s ++ ":" ++ joinPath p) = .ok (R ++ p) := by
  have hlast := lastVal_scanPairs_hit fs idx.sources exts s R p e hsrc hnodup hcolon hwf
    hmem hp he hext
  simp only [get_note_path, index_sources]
  rw [lookupA_updateAll]
  rw [hlast]

/-- C6 (amended): starting from an empty `notes` mapping, `scan`
indexes exactly the regular files under a registered source whose file
name matches `*.{e}` case-sensitively for some normalized extension `e`
(lowercased, leading dots stripped); each such file is inserted under
its computed identifier.  A file whose extension matches only
case-insensitively (such as `NOTES.MD` against `md`) is not indexed. -/
theorem C6_scan_exact (fs : FS) (sources : List (String × Path)) (exts : List String)
    (hnodup : (sources.map Prod.fst).Nodup)
    (hcolon : ∀ nm ∈ sources.map Prod.fst, ':' ∉ nm.data)
    (hwf : ∀ f ∈ fs.files, ∀ c ∈ f, wfComp c)
    (noteId : String) (f : Path) :
    lookupA (index_sources fs ⟨[], sources, []⟩ exts).notes noteId = some f ↔
      ∃ s R p e, (s, R) ∈ sources ∧ f = R ++ p ∧ p ≠ [] ∧ f ∈ fs.files ∧
        e ∈ normalizeExts exts ∧ matchesExtPattern e f = true ∧
        noteId = s ++ ":" ++ joinPath p := by
  constructor
  · intro h
    simp only [index_sources] at h
    rw [lookupA_updateAll] at h
    cases hl : lastVal (scanPairs fs sources (normalizeExts exts)) noteId with
    | none =>
      rw [hl] at h
      simp [lookupA] at h
    | some v =>
      rw [hl] at h
      simp only [Option.some.injEq] at h
      subst h
      have hmem := lastVal_mem _ _ _ hl
      obtain ⟨sp, hsp, e, he, f', hf', hu', hm', hkv_eq⟩ :=
        (mem_scanPairs fs sources (normalizeExts exts) _).mp hmem
      obtain ⟨s', R'⟩ := sp
      obtain ⟨t, ht_ne, hft, hdrop⟩ := isStrictlyUnder_decomp R' f' hu'
      have h1 : noteId = s' ++ ":" ++ joinPath (f'.drop R'.length) :=
        congrArg Prod.fst hkv_eq
      have h2 : v = f' := congrArg Prod.snd hkv_eq
      rw [hdrop] at h1
      refine ⟨s', R', t, e, hsp, ?_, ht_ne, ?_, he, ?_, h1⟩
      · rw [h2, hft]
      · rw [h2]
        exact hf'
      · rw [h2]
        exact hm'
  · rintro ⟨s, R, p, e, hsrc, hfeq, hp, hfmem, he, hext, hid⟩
    subst hfeq
    subst hid
    have hlast := lastVal_scanPairs_hit fs sources exts s R p e hsrc hnodup hcolon hwf
      hfmem hp he hext
    simp only [index_sources]
    rw [lookupA_updateAll, hlast]

/-- C9: a second `scan` with the same extension set over an unchanged
filesystem maps every identifier to the same path as the first scan
(the `notes` mapping is identical). -/
theorem C9_rescan_idempotent (fs : FS) (idx : NotesIndex) (exts : List String)
    (noteId : String) :
    lookupA (index_sources fs (index_sources fs idx exts) exts).notes noteId =
      lookupA (index_sources fs idx exts).notes noteId := by
  simp only [index_sources]
  rw [lookupA_updateAll, lookupA_updateAll]
  cases lastVal (scanPairs fs idx.sources (normalizeExts exts)) noteId <;> simp

/-! ### Witnesses and counterexamples on the concrete fixtures -/

/-- Witness for C1 at a concrete environment and `max_results = 2`. -/
theorem C1_witness :
    0 < (2 : Int) ∧ ((search envNoTools fsW idxW "hello" 2 0).length : Int) ≤ 2 :=
  ⟨by decide, C1_search_cap envNoTools fsW idxW "hello" 2 0 (by decide)⟩

/-- Witness for C2: the identifier of `r/a.md` round-trips. -/
theorem C2_witness :
    get_note_path (index_sources fsW idxW ["md"]) ("r" ++ ":" ++ joinPath ["a.md"]) =
      .ok (["r"] ++ ["a.md"]) :=
  C2_roundtrip fsW idxW ["md"] "r" ["r"] ["a.md"] "md" (by decide) (by decide) (by decide)
    (by decide) (by decide) (by decide) (by decide) (by decide)

/-- Counterexample to C3 as stated: the query `"one\ntwo"` is a
substring of the note's content, yet the emitted `line_number` is `0`,
not a positive integer (no single line contains the query). -/
theorem C3_counterexample :
    ¬ (∀ r ∈ search envNoTools fsC3 idxC3 "one\ntwo" 10 2, 1 ≤ r.line_number) := by
  decide

/-- Witness for the amended C3 on a file whose match lies inside one
line: the emitted result has `line_number = 2 ≥ 1`. -/
theorem C3_witness :
    1 ≤ ({ note_id := "r:a.md", line_number := 2, context := "hello\nworld" } :
      SearchResult).line_number := by
  refine C3_basic_line_number fsW idxW.notes "world" 10 ?_ _ (by decide)
  intro kv hkv content hrf hcontains
  fin_cases hkv
  · have hc : content = "hello\nworld\n" := by
      simpa [fsW] using hrf.symm
    subst hc
    exact ⟨"world", by decide, by decide⟩
  · exact absurd hrf (by simp [fsW])

/-- Counterexample to C4 as stated: the match is on line 4 of a six-line
file, so a window of up to 3 lines before and 2 after would span all six
lines, but the emitted context starts at line 2 (it does not contain
`l1`). -/
theorem C4_counterexample :
    basic_search fsC4 idxC4.notes "foo" 10 =
      [{ note_id := "r:b.md", line_number := 4, context := "l2\nl3\nfoo\nl5\nl6" }] ∧
    strContains "l2\nl3\nfoo\nl5\nl6" "l1" = false := by
  exact ⟨rfl, rfl⟩

/-- Witness for the amended C4 on a concrete index: one result per
matching file, built by `basicResultFor`. -/
theorem C4_witness :
    basic_search fsW idxW.notes "world" 10 =
      (idxW.notes.filter (basicIsMatch fsW (pyLower "world"))).map
        (basicResultFor fsW (pyLower "world")) :=
  C4_basic_scan fsW idxW.notes "world" 10 (by decide)

/-- Witness for C5: registration fails on a missing directory and
succeeds on an existing one, resolving and inserting it. -/
theorem C5_witness :
    add_notes_dir dirEnvW idxEmpty ["nope"] none =
      .error ("not a directory: " ++ joinPath ["nope"]) ∧
    add_notes_dir dirEnvW idxEmpty ["r"] none =
      .ok { idxEmpty with sources := insertA idxEmpty.sources "r" ["r"] } :=
  ⟨(C5_register_source dirEnvW idxEmpty ["nope"] none).1 (Or.inr rfl),
   (C5_register_source dirEnvW idxEmpty ["r"] none).2 rfl⟩

/-- Counterexample to C6 as stated: `NOTES.MD` matches `md`
case-insensitively, yet a scan with `["md"]` indexes nothing, because
the glob is case-sensitive on a POSIX filesystem. -/
theorem C6_counterexample :
    (index_sources fsC6 idxC6 ["md"]).notes = [] ∧
    ["r", "NOTES.MD"] ∈ fsC6.files ∧
    "md" ∈ normalizeExts ["md"] ∧
    pyEndsWith (pyLower (fileName ["r", "NOTES.MD"])) ("." ++ "md") = true := by
  exact ⟨rfl, by decide, by decide, by decide⟩

/-- Witness for the amended C6: `r/a.md` is indexed under `r:a.md`. -/
theorem C6_witness :
    lookupA (index_sources fsW ⟨[], [("r", ["r"])], []⟩ ["md"]).notes "r:a.md" =
      some ["r", "a.md"] :=
  (C6_scan_exact fsW [("r", ["r"])] ["md"] (by decide) (by decide) (by decide)
      "r:a.md" ["r", "a.md"]).mpr
    ⟨"r", ["r"], ["a.md"], "md", by decide, rfl, by decide, by decide, by decide,
      by decide, rfl⟩

/-- Witness for C7: the three read outcomes on a concrete index. -/
theorem C7_witness :
    read_note fsW idxW "nope" =
      .error ("Note ID " ++ sq ++ "nope" ++ sq ++ " not found in index") ∧
    read_note fsW idxW "r:bad.md" =
      .error ("Failed to read note " ++ "r:bad.md" ++ ": " ++ "missing") ∧
    read_note fsW idxW "r:a.md" = .ok "hello\nworld\n" :=
  ⟨(C7_read_note_errors fsW idxW "nope").1 rfl,
   (C7_read_note_errors fsW idxW "r:bad.md").2.1 ["r", "bad.md"] "missing" rfl rfl,
   (C7_read_note_errors fsW idxW "r:a.md").2.2 ["r", "a.md"] "hello\nworld\n" rfl rfl⟩

/-- Witness for C8: no-tool fallback, broken-backend fallback, and the
empty result on a query with no matches. -/
theorem C8_witness :
    search envNoTools fsW idxW "zzz" 10 2 = basic_search fsW idxW.notes "zzz" 10 ∧
    search envRgBroken fsW idxW "zzz" 10 2 = basic_search fsW idxW.notes "zzz" 10 ∧
    search envNoTools fsW idxW "zzz" 10 2 = [] :=
  ⟨(C8_search_graceful envNoTools fsW idxW "zzz" 10 2).1 rfl rfl,
   (C8_search_graceful envRgBroken fsW idxW "zzz" 10 2).2.1 rfl rfl,
   (C8_search_graceful envNoTools fsW idxW "zzz" 10 2).2.2 (by decide) rfl rfl⟩

end NbMcp
